import Mathlib

/-!
Verification development for the `wt` git-worktree manager.

The definitions below are a shallow embedding of the Go sources:
* `internal/worktree` (branch naming: `SanitizeBranchName`, `BranchName`,
  `BranchNameFromTicket`),
* `internal/config` (`Config`, `Task`, `AddTask`, `RemoveTask`, `FindTask`,
  `Save`, `Load`),
* `internal/task` (`Start`, `Finish`, `Remove`).

Strings are modelled as `List Char` at the core (Go's byte length and the
character count coincide on the ASCII fragment produced by the sanitizer,
since every character outside `[a-z0-9]` has been replaced by `-` before any
length test happens).  External effects (git, the filesystem, the YAML file)
are modelled by explicit state passing plus oracles for the success or
failure of each external call.
-/

namespace Wt

/-- ASCII branch characters kept by the sanitizer: `[a-z0-9]`
(codepoints 97–122 and 48–57).  This is the complement of the Go regular
expression `[^a-z0-9]+` used in `SanitizeBranchName`. -/
def isAllowed (c : Char) : Bool :=
  (97 ≤ c.toNat && c.toNat ≤ 122) || (48 ≤ c.toNat && c.toNat ≤ 57)

/-- Hyphen test (codepoint 45), used for Go's `strings.Trim(s, "-")` and
`strings.TrimRight(s, "-")`. -/
def isHyphen (c : Char) : Bool := c.toNat == 45

/-- Whitespace as trimmed by Go's `strings.TrimSpace` (ASCII fragment:
space, tab, newline, vertical tab, form feed, carriage return). -/
def isGoSpace (c : Char) : Bool :=
  c.toNat == 32 || c.toNat == 9 || c.toNat == 10 ||
  c.toNat == 11 || c.toNat == 12 || c.toNat == 13

/-- Drop matching characters from the front: Go `strings.TrimLeft`. -/
def trimLeft (p : Char → Bool) (l : List Char) : List Char := l.dropWhile p

/-- Drop matching characters from the back: Go `strings.TrimRight`. -/
def trimRight (p : Char → Bool) (l : List Char) : List Char :=
  (l.reverse.dropWhile p).reverse

/-- Drop matching characters from both ends: Go `strings.Trim`. -/
def trimBoth (p : Char → Bool) (l : List Char) : List Char :=
  trimRight p (trimLeft p l)

/-- One step of the regular-expression replacement
`regexp.MustCompile("[^a-z0-9]+").ReplaceAllString(s, "-")`: every maximal
run of characters outside `[a-z0-9]` becomes a single `'-'`.  The flag
records whether we are inside such a run (its first character has already
produced the hyphen). -/
def collapseAux : Bool → List Char → List Char
  | _, [] => []
  | inRun, c :: cs =>
    if isAllowed c then c :: collapseAux false cs
    else if inRun then collapseAux true cs
    else '-' :: collapseAux true cs

/-- Regular-expression replacement `[^a-z0-9]+` → `-` on the whole string. -/
def collapseRuns (l : List Char) : List Char := collapseAux false l

/-- The length cap of `SanitizeBranchName` (and, inlined, of
`BranchNameFromTicket`): `if len(s) > 60 { s = s[:60]; s = strings.TrimRight(s, "-") }`. -/
def cap60 (l : List Char) : List Char :=
  if l.length > 60 then trimRight isHyphen (l.take 60) else l

/-- Core of Go `SanitizeBranchName` (internal/worktree):
`s := strings.ToLower(strings.TrimSpace(description))`, replace `[^a-z0-9]+`
by `-`, `strings.Trim(s, "-")`, then the 60-byte cap with trailing-hyphen
re-trim.  `Char.toLower` matches Go `strings.ToLower` on the ASCII fragment. -/
def sanitizeCore (s : List Char) : List Char :=
  cap60 (trimBoth isHyphen (collapseRuns ((trimBoth isGoSpace s).map Char.toLower)))

/-- Go `SanitizeBranchName` at the `String` level. -/
def SanitizeBranchName (s : String) : String := String.mk (sanitizeCore s.data)

/-- Go `BranchName(prefix, description)`: `prefix + "/" + sanitized`, or the
bare slug when the prefix is empty. -/
def BranchName (pfx description : String) : String :=
  let sanitized := SanitizeBranchName description
  if pfx = "" then sanitized else pfx ++ "/" ++ sanitized

/-- Core of Go `BranchNameFromTicket`: `key := strings.ToLower(ticketKey)`,
`name := key + "-" + sanitized(summary)`, then the same 60-byte cap with
trailing-hyphen re-trim.  Note the key is only lowercased, not sanitized. -/
def ticketNameCore (key summary : List Char) : List Char :=
  cap60 ((key.map Char.toLower) ++ '-' :: sanitizeCore summary)

/-- Go `BranchNameFromTicket(prefix, ticketKey, summary)` at the `String`
level: the capped combined name, with `prefix + "/"` prepended when the
prefix is non-empty. -/
def BranchNameFromTicket (pfx ticketKey summary : String) : String :=
  let name := String.mk (ticketNameCore ticketKey.data summary.data)
  if pfx = "" then name else pfx ++ "/" ++ name

/-- The ticket-based branch namer exactly as the spec words it: compose
`sanitize(ticketKey) + "-" + sanitize(summary)`, apply the same 60-character
cap (re-trimming trailing hyphens), then prepend `prefix + "/"` when the
prefix is non-empty.  This definition follows the spec's words and is
compared with `BranchNameFromTicket`, which follows the source. -/
def fromTicketSpec (pfx ticketKey summary : String) : String :=
  let name := String.mk (cap60 (sanitizeCore ticketKey.data ++ '-' :: sanitizeCore summary.data))
  if pfx = "" then name else pfx ++ "/" ++ name

example : SanitizeBranchName "add user authentication" = "add-user-authentication" := by decide
example : SanitizeBranchName "Fix Bug #123: Login Fails!" = "fix-bug-123-login-fails" := by decide
example : SanitizeBranchName "  spaces everywhere  " = "spaces-everywhere" := by decide
example : SanitizeBranchName "---leading-trailing---" = "leading-trailing" := by decide
example : SanitizeBranchName "a-very-long-description-that-exceeds-the-sixty-character-limit-by-quite-a-bit"
    = "a-very-long-description-that-exceeds-the-sixty-character-lim" := by decide
example : BranchName "feature" "add login" = "feature/add-login" := by decide
example : BranchName "" "add login" = "add-login" := by decide
example : BranchNameFromTicket "feature" "PROJ-123" "implement oauth flow"
    = "feature/proj-123-implement-oauth-flow" := by decide
example : BranchNameFromTicket "" "BUG-456" "fix crash on startup"
    = "bug-456-fix-crash-on-startup" := by decide

/-! ### Character facts -/

/-- A character the sanitizer can emit: kept alphanumeric or hyphen. -/
def slugChar (c : Char) : Bool := isAllowed c || isHyphen c

theorem allowed_not_hyphen {c : Char} (h : isAllowed c = true) : isHyphen c = false := by
  simp only [isAllowed, Bool.or_eq_true, Bool.and_eq_true, decide_eq_true_eq] at h
  simp only [isHyphen, beq_eq_false_iff_ne, ne_eq]
  omega

theorem hyphen_eq {c : Char} (h : isHyphen c = true) : c = '-' := by
  have h45 : c.toNat = 45 := by simpa [isHyphen] using h
  have hc := Char.ofNat_toNat c
  rw [h45] at hc
  rw [← hc]

theorem slug_not_space {c : Char} (h : slugChar c = true) : isGoSpace c = false := by
  simp only [slugChar, isAllowed, isHyphen, Bool.or_eq_true, Bool.and_eq_true,
    decide_eq_true_eq, beq_iff_eq] at h
  simp only [isGoSpace, Bool.or_eq_false_iff, beq_eq_false_iff_ne, ne_eq]
  omega

theorem slug_toLower_id {c : Char} (h : slugChar c = true) : c.toLower = c := by
  simp only [slugChar, isAllowed, isHyphen, Bool.or_eq_true, Bool.and_eq_true,
    decide_eq_true_eq, beq_iff_eq] at h
  unfold Char.toLower
  rw [if_neg (by omega)]

/-! ### List helper lemmas -/

theorem takeWhile_append_dropWhile' (p : Char → Bool) (l : List Char) :
    l.takeWhile p ++ l.dropWhile p = l := by
  induction l with
  | nil => rfl
  | cons a as ih =>
    by_cases h : p a <;>
      simp [List.takeWhile_cons, List.dropWhile_cons, h, ih]

theorem mem_of_head? {l : List Char} {c : Char} (h : l.head? = some c) : c ∈ l := by
  cases l with
  | nil => simp at h
  | cons a as =>
    simp only [List.head?_cons, Option.some.injEq] at h
    rw [← h]
    exact List.mem_cons_self a as

theorem head?_dropWhile_false {p : Char → Bool} :
    ∀ {l : List Char} {c : Char}, (l.dropWhile p).head? = some c → p c = false := by
  intro l
  induction l with
  | nil => intro c h; simp [List.dropWhile] at h
  | cons a as ih =>
    intro c h
    by_cases hp : p a
    · rw [List.dropWhile_cons_of_pos hp] at h
      exact ih h
    · rw [List.dropWhile_cons_of_neg hp] at h
      simp only [List.head?_cons, Option.some.injEq] at h
      rw [← h]
      exact Bool.eq_false_iff.mpr hp

theorem dropWhile_eq_self {p : Char → Bool} {l : List Char}
    (h : ∀ c, l.head? = some c → p c = false) : l.dropWhile p = l := by
  cases l with
  | nil => rfl
  | cons a as =>
    exact List.dropWhile_cons_of_neg (by simp [h a rfl])

theorem trimLeft_decomp (p : Char → Bool) (l : List Char) :
    ∃ t, l = t ++ trimLeft p l :=
  ⟨l.takeWhile p, (takeWhile_append_dropWhile' p l).symm⟩

theorem trimRight_decomp (p : Char → Bool) (l : List Char) :
    ∃ t, l = trimRight p l ++ t := by
  refine ⟨(l.reverse.takeWhile p).reverse, ?_⟩
  unfold trimRight
  rw [← List.reverse_append, takeWhile_append_dropWhile' p l.reverse, List.reverse_reverse]

theorem length_le_of_append_right {r t l : List Char} (h : l = r ++ t) :
    r.length ≤ l.length := by
  subst h
  rw [List.length_append]
  omega

theorem head?_append_left {r : List Char} (t : List Char) (h : r ≠ []) :
    (r ++ t).head? = r.head? := by
  cases r with
  | nil => exact absurd rfl h
  | cons a as => rfl

theorem trimRight_getLast?_false {p : Char → Bool} {l : List Char} {c : Char}
    (h : (trimRight p l).getLast? = some c) : p c = false := by
  unfold trimRight at h
  rw [List.getLast?_reverse] at h
  exact head?_dropWhile_false h

theorem trimLeft_head?_false {p : Char → Bool} {l : List Char} {c : Char}
    (h : (trimLeft p l).head? = some c) : p c = false :=
  head?_dropWhile_false h

/-! ### No-adjacent-hyphen invariant -/

/-- No two consecutive characters are both hyphens.  Every intermediate
string of the sanitizer after the run-collapsing step satisfies this. -/
def noAdjHyphen : List Char → Bool
  | [] => true
  | [_] => true
  | a :: b :: rest => (!(isHyphen a && isHyphen b)) && noAdjHyphen (b :: rest)

theorem noAdj_tail {a : Char} {l : List Char} (h : noAdjHyphen (a :: l) = true) :
    noAdjHyphen l = true := by
  cases l with
  | nil => rfl
  | cons b bs =>
    simp only [noAdjHyphen, Bool.and_eq_true] at h
    exact h.2

theorem noAdj_cons {a : Char} {l : List Char} (h : noAdjHyphen l = true)
    (hpair : ∀ c, l.head? = some c → (isHyphen a && isHyphen c) = false) :
    noAdjHyphen (a :: l) = true := by
  cases l with
  | nil => rfl
  | cons b bs =>
    simp only [noAdjHyphen, Bool.and_eq_true, Bool.not_eq_true']
    exact ⟨hpair b rfl, h⟩

theorem noAdj_append_left : ∀ (l t : List Char),
    noAdjHyphen (l ++ t) = true → noAdjHyphen l = true
  | [], _, _ => rfl
  | [_], _, _ => rfl
  | a :: b :: bs, t, h => by
    simp only [List.cons_append, noAdjHyphen, Bool.and_eq_true] at h ⊢
    exact ⟨h.1, noAdj_append_left (b :: bs) t h.2⟩

theorem noAdj_append_right : ∀ (t l : List Char),
    noAdjHyphen (t ++ l) = true → noAdjHyphen l = true
  | [], _, h => h
  | _ :: as, l, h => noAdj_append_right as l (noAdj_tail h)

theorem all_of_append_left {p : Char → Bool} {r t : List Char}
    (h : (r ++ t).all p = true) : r.all p = true := by
  rw [List.all_append, Bool.and_eq_true] at h
  exact h.1

theorem all_of_append_right {p : Char → Bool} {r t : List Char}
    (h : (t ++ r).all p = true) : r.all p = true := by
  rw [List.all_append, Bool.and_eq_true] at h
  exact h.2

/-! ### Facts about the run-collapsing step -/

theorem collapseAux_all : ∀ (b : Bool) (l : List Char),
    (collapseAux b l).all slugChar = true
  | _, [] => rfl
  | b, c :: cs => by
    unfold collapseAux
    by_cases h : isAllowed c = true
    · rw [if_pos h]
      simp only [List.all_cons, Bool.and_eq_true]
      exact ⟨by simp [slugChar, h], collapseAux_all false cs⟩
    · rw [if_neg h]
      cases b with
      | true => simpa using collapseAux_all true cs
      | false =>
        simp only [Bool.false_eq_true, if_false, List.all_cons, Bool.and_eq_true]
        exact ⟨by decide, collapseAux_all true cs⟩

theorem collapseAux_true_head : ∀ (l : List Char) (c : Char),
    (collapseAux true l).head? = some c → isAllowed c = true
  | [], c, h => by simp [collapseAux] at h
  | a :: as, c, h => by
    unfold collapseAux at h
    by_cases ha : isAllowed a = true
    · rw [if_pos ha] at h
      simp only [List.head?_cons, Option.some.injEq] at h
      rw [← h]
      exact ha
    · rw [if_neg ha, if_pos rfl] at h
      exact collapseAux_true_head as c h

theorem collapseAux_noAdj : ∀ (b : Bool) (l : List Char),
    noAdjHyphen (collapseAux b l) = true
  | _, [] => rfl
  | b, a :: as => by
    unfold collapseAux
    by_cases ha : isAllowed a = true
    · rw [if_pos ha]
      refine noAdj_cons (collapseAux_noAdj false as) ?_
      intro c _
      rw [allowed_not_hyphen ha, Bool.false_and]
    · rw [if_neg ha]
      cases b with
      | true => simpa using collapseAux_noAdj true as
      | false =>
        simp only [Bool.false_eq_true, if_false]
        refine noAdj_cons (collapseAux_noAdj true as) ?_
        intro c hc
        rw [allowed_not_hyphen (collapseAux_true_head as c hc), Bool.and_false]

/-! ### The slug invariant carried through the sanitizer stages -/

/-- Shape of every `SanitizeBranchName` output: only `[a-z0-9-]` characters,
no two adjacent hyphens, hyphen-free ends, and at most 60 characters. -/
def goodSlug (l : List Char) : Prop :=
  l.all slugChar = true ∧ noAdjHyphen l = true ∧
  (∀ c, l.head? = some c → isHyphen c = false) ∧
  (∀ c, l.getLast? = some c → isHyphen c = false) ∧
  l.length ≤ 60

theorem trimBoth_hyphen_facts {l : List Char}
    (hall : l.all slugChar = true) (hadj : noAdjHyphen l = true) :
    (trimBoth isHyphen l).all slugChar = true ∧
    noAdjHyphen (trimBoth isHyphen l) = true ∧
    (∀ c, (trimBoth isHyphen l).head? = some c → isHyphen c = false) ∧
    (∀ c, (trimBoth isHyphen l).getLast? = some c → isHyphen c = false) := by
  obtain ⟨t1, ht1⟩ := trimLeft_decomp isHyphen l
  obtain ⟨t2, ht2⟩ := trimRight_decomp isHyphen (trimLeft isHyphen l)
  have hallt : (trimLeft isHyphen l).all slugChar = true :=
    all_of_append_right (ht1 ▸ hall)
  have hadjt : noAdjHyphen (trimLeft isHyphen l) = true :=
    noAdj_append_right t1 _ (ht1 ▸ hadj)
  have hres : trimBoth isHyphen l = trimRight isHyphen (trimLeft isHyphen l) := rfl
  refine ⟨?_, ?_, ?_, ?_⟩
  · rw [hres]
    exact all_of_append_left (ht2 ▸ hallt)
  · rw [hres]
    exact noAdj_append_left _ t2 (ht2 ▸ hadjt)
  · intro c hc
    rw [hres] at hc
    have hne : trimRight isHyphen (trimLeft isHyphen l) ≠ [] := by
      intro h0
      rw [h0] at hc
      simp at hc
    have hhd : (trimLeft isHyphen l).head? = some c := by
      rw [ht2, head?_append_left t2 hne]
      exact hc
    exact trimLeft_head?_false hhd
  · intro c hc
    rw [hres] at hc
    exact trimRight_getLast?_false hc

theorem cap60_facts {l : List Char}
    (hall : l.all slugChar = true) (hadj : noAdjHyphen l = true)
    (hhead : ∀ c, l.head? = some c → isHyphen c = false)
    (hlast : ∀ c, l.getLast? = some c → isHyphen c = false) :
    goodSlug (cap60 l) := by
  unfold cap60
  by_cases hlen : l.length > 60
  · rw [if_pos hlen]
    have hdecomp : l = l.take 60 ++ l.drop 60 := (List.take_append_drop 60 l).symm
    have halltake : (l.take 60).all slugChar = true :=
      all_of_append_left (hdecomp ▸ hall)
    have hadjtake : noAdjHyphen (l.take 60) = true :=
      noAdj_append_left _ _ (hdecomp ▸ hadj)
    obtain ⟨t2, ht2⟩ := trimRight_decomp isHyphen (l.take 60)
    refine ⟨?_, ?_, ?_, ?_, ?_⟩
    · exact all_of_append_left (ht2 ▸ halltake)
    · exact noAdj_append_left _ t2 (ht2 ▸ hadjtake)
    · intro c hc
      have hne : trimRight isHyphen (l.take 60) ≠ [] := by
        intro h0
        rw [h0] at hc
        simp at hc
      have htake_ne : l.take 60 ≠ [] := by
        intro h0
        apply hne
        rw [h0]
        rfl
      have h1 : (l.take 60).head? = some c := by
        rw [ht2, head?_append_left t2 hne]
        exact hc
      have h2 : l.head? = some c := by
        conv_lhs => rw [hdecomp]
        rw [head?_append_left _ htake_ne]
        exact h1
      exact hhead c h2
    · intro c hc
      exact trimRight_getLast?_false hc
    · have hlen1 : (trimRight isHyphen (l.take 60)).length ≤ (l.take 60).length :=
        length_le_of_append_right ht2
      have hlen2 : (l.take 60).length ≤ 60 := by
        rw [List.length_take]
        omega
      omega
  · rw [if_neg hlen]
    exact ⟨hall, hadj, hhead, hlast, by omega⟩

theorem sanitizeCore_goodSlug (s : List Char) : goodSlug (sanitizeCore s) := by
  unfold sanitizeCore
  have h1 : (collapseRuns ((trimBoth isGoSpace s).map Char.toLower)).all slugChar = true :=
    collapseAux_all false _
  have h2 : noAdjHyphen (collapseRuns ((trimBoth isGoSpace s).map Char.toLower)) = true :=
    collapseAux_noAdj false _
  obtain ⟨h3, h4, h5, h6⟩ := trimBoth_hyphen_facts h1 h2
  exact cap60_facts h3 h4 h5 h6

/-! ### Sanitizing a good slug is the identity -/

theorem all_mem_of_all {p : Char → Bool} {l : List Char} (h : l.all p = true) :
    ∀ c ∈ l, p c = true := by
  simpa [List.all_eq_true] using h

theorem trim_eq_self_of_all_false {p : Char → Bool} {l : List Char}
    (h : ∀ c ∈ l, p c = false) : trimBoth p l = l := by
  have hleft : trimLeft p l = l :=
    dropWhile_eq_self (fun c hc => h c (mem_of_head? hc))
  unfold trimBoth
  rw [hleft]
  unfold trimRight
  rw [dropWhile_eq_self, List.reverse_reverse]
  intro c hc
  exact h c (List.mem_reverse.mp (mem_of_head? hc))

theorem trim_eq_self_of_ends {p : Char → Bool} {l : List Char}
    (hh : ∀ c, l.head? = some c → p c = false)
    (hl : ∀ c, l.getLast? = some c → p c = false) : trimBoth p l = l := by
  have hleft : trimLeft p l = l := dropWhile_eq_self hh
  unfold trimBoth
  rw [hleft]
  unfold trimRight
  rw [dropWhile_eq_self, List.reverse_reverse]
  intro c hc
  rw [List.head?_reverse] at hc
  exact hl c hc

theorem map_toLower_id {l : List Char} (h : l.all slugChar = true) :
    l.map Char.toLower = l := by
  induction l with
  | nil => rfl
  | cons a as ih =>
    simp only [List.all_cons, Bool.and_eq_true] at h
    simp only [List.map_cons, slug_toLower_id h.1, ih h.2]

theorem collapse_id : ∀ (l : List Char), l.all slugChar = true → noAdjHyphen l = true →
    (∀ c, l.getLast? = some c → isHyphen c = false) → collapseRuns l = l
  | [], _, _, _ => rfl
  | [c], hall, _, hlast => by
    have hc : slugChar c = true := by
      simpa [List.all_cons] using hall
    have hnh : isHyphen c = false := hlast c rfl
    have hca : isAllowed c = true := by
      simpa [slugChar, hnh] using hc
    simp [collapseRuns, collapseAux, hca]
  | a :: b :: bs, hall, hadj, hlast => by
    have hall' : (b :: bs).all slugChar = true := by
      simp only [List.all_cons, Bool.and_eq_true] at hall ⊢
      exact hall.2
    have hsa : slugChar a = true := by
      simp only [List.all_cons, Bool.and_eq_true] at hall
      exact hall.1
    have hadj' : noAdjHyphen (b :: bs) = true := noAdj_tail hadj
    have hlast' : ∀ c, (b :: bs).getLast? = some c → isHyphen c = false := by
      intro c hc
      apply hlast
      rw [List.getLast?_cons_cons]
      exact hc
    by_cases ha : isAllowed a = true
    · show collapseAux false (a :: b :: bs) = a :: b :: bs
      have hrec : collapseAux false (b :: bs) = b :: bs :=
        collapse_id (b :: bs) hall' hadj' hlast'
      unfold collapseAux
      rw [if_pos ha, hrec]
    · have hha : isHyphen a = true := by
        simpa [slugChar, ha] using hsa
      have hb_nh : isHyphen b = false := by
        simp only [noAdjHyphen, Bool.and_eq_true, Bool.not_eq_true'] at hadj
        have h1 := hadj.1
        rw [hha, Bool.true_and] at h1
        exact h1
      have hsb : slugChar b = true := by
        simp only [List.all_cons, Bool.and_eq_true] at hall'
        exact hall'.1
      have hb_allowed : isAllowed b = true := by
        simpa [slugChar, hb_nh] using hsb
      show collapseAux false (a :: b :: bs) = a :: b :: bs
      unfold collapseAux
      rw [if_neg ha]
      simp only [Bool.false_eq_true, if_false]
      rw [hyphen_eq hha]
      have hsw : collapseAux true (b :: bs) = collapseAux false (b :: bs) := by
        unfold collapseAux
        rw [if_pos hb_allowed, if_pos hb_allowed]
      have hrec : collapseAux false (b :: bs) = b :: bs :=
        collapse_id (b :: bs) hall' hadj' hlast'
      rw [hsw, hrec]

theorem sanitizeCore_fixed {l : List Char} (h : goodSlug l) : sanitizeCore l = l := by
  obtain ⟨hall, hadj, hhead, hlast, hlen⟩ := h
  unfold sanitizeCore
  rw [trim_eq_self_of_all_false (fun c hc => slug_not_space (all_mem_of_all hall c hc)),
    map_toLower_id hall, collapse_id l hall hadj hlast,
    trim_eq_self_of_ends hhead hlast]
  unfold cap60
  rw [if_neg (by omega)]

/-! ### Claims about the branch namer -/

/-- C7: for every input string, `SanitizeBranchName`'s output is at most 60
characters long, and it never starts or ends with a hyphen (for the empty
result, `head?` and `getLast?` are `none`, so the claim holds vacuously). -/
theorem sanitize_length_and_hyphen_bounds (s : String) :
    (SanitizeBranchName s).length ≤ 60 ∧
    (SanitizeBranchName s).data.head? ≠ some '-' ∧
    (SanitizeBranchName s).data.getLast? ≠ some '-' := by
  obtain ⟨_, _, hh, hl, hlen⟩ := sanitizeCore_goodSlug s.data
  refine ⟨hlen, ?_, ?_⟩
  · intro hc
    exact absurd (hh '-' hc) (by decide)
  · intro hc
    exact absurd (hl '-' hc) (by decide)

/-- C8: `SanitizeBranchName` is idempotent: sanitizing an already sanitized
string returns it unchanged. -/
theorem sanitize_idempotent (s : String) :
    SanitizeBranchName (SanitizeBranchName s) = SanitizeBranchName s := by
  unfold SanitizeBranchName
  exact congrArg String.mk (sanitizeCore_fixed (sanitizeCore_goodSlug s.data))

/-- C1 counterexample: `BranchNameFromTicket` does not sanitize the ticket
key, it only lowercases it, so for the key "PROJ 123" the code returns
"proj 123-x" while the spec's composition `sanitize(ticketKey) + "-" +
sanitize(summary)` gives "proj-123-x". -/
theorem fromTicket_spec_counterexample :
    BranchNameFromTicket "" "PROJ 123" "x" ≠ fromTicketSpec "" "PROJ 123" "x" := by
  decide

/-- C1 amended: `BranchNameFromTicket(prefix, ticketKey, summary)` equals the
spec's composition whenever lowercasing the ticket key already sanitizes it
(`sanitize(key) = lowercase(key)`, true of conventional keys like PROJ-123);
in general the code lowercases the key without sanitizing it.  The spec's
concrete example holds. -/
theorem fromTicket_lower_spec :
    (∀ pfx key summary : String,
        sanitizeCore key.data = key.data.map Char.toLower →
        BranchNameFromTicket pfx key summary = fromTicketSpec pfx key summary) ∧
    BranchNameFromTicket "feature" "PROJ-123" "Implement OAuth Flow"
      = "feature/proj-123-implement-oauth-flow" := by
  constructor
  · intro pfx key summary h
    unfold BranchNameFromTicket fromTicketSpec ticketNameCore
    rw [h]
  · decide

/-- Witness for the amended C1 theorem at the spec's own example key. -/
theorem fromTicket_lower_spec_witness :
    BranchNameFromTicket "feature" "PROJ-123" "Implement OAuth Flow"
      = fromTicketSpec "feature" "PROJ-123" "Implement OAuth Flow" :=
  fromTicket_lower_spec.1 "feature" "PROJ-123" "Implement OAuth Flow" (by decide)

/-! ### Data model of internal/config: Task and Config

`Config` mirrors the Go struct (internal/config/config.go).  Go maps are
modelled as association lists, `time.Time` as an opaque `Nat`, and the
unexported `path`/`mu` fields (excluded from YAML) are omitted. -/

/-- Go `config.Task`. -/
structure Task where
  id : String
  description : String
  worktree : String
  branch : String
  repoPath : String
  connector : String
  ticketKey : String
  created : Nat
deriving DecidableEq, Repr

/-- Go `config.ConnectorConfig`. -/
structure ConnectorConfig where
  url : String
  email : String
  apiToken : String
  project : String
deriving DecidableEq, Repr

/-- Go `config.Config`. -/
structure Config where
  worktreesBase : String
  defaultBranch : String
  branchPrefix : String
  defaultAgent : String
  agentAliases : List (String × String)
  connectors : List (String × ConnectorConfig)
  tasks : List Task
deriving DecidableEq, Repr

/-- Go `config.DefaultConfig()`: `WorktreesBase` is the user's home directory
joined with "worktrees"; the home directory is a parameter here. -/
def DefaultConfig (home : String) : Config :=
  ⟨home ++ "/worktrees", "main", "feature", "", [], [], []⟩

/-- In-memory effect of Go `(*Config).AddTask` (the `c.Tasks = append(c.Tasks, t)`
line; the subsequent `c.Save()` is modelled separately). -/
def AddTask (c : Config) (t : Task) : Config :=
  { c with tasks := c.tasks ++ [t] }

/-- In-memory effect of Go `(*Config).RemoveTask`: remove the first task with
the given id (the loop returns at the first match). -/
def removeFirstTask : List Task → String → List Task
  | [], _ => []
  | t :: ts, id => if t.id = id then ts else t :: removeFirstTask ts id

/-- Go `(*Config).FindTask`: first task with the given id, if any. -/
def FindTask (c : Config) (id : String) : Option Task :=
  c.tasks.find? (fun t => t.id == id)

/-- Go `(*Config).FindTaskByWorktree`: first task with the given worktree
directory, if any. -/
def FindTaskByWorktree (c : Config) (dir : String) : Option Task :=
  c.tasks.find? (fun t => t.worktree == dir)

/-- A concrete task used in counterexamples and witnesses. -/
def taskA : Task :=
  ⟨"wt-0a0a", "demo", "/home/u/worktrees/repo/demo", "feature/demo", "/home/u/repo", "", "", 0⟩

/-- A registry that already contains `taskA`. -/
def cfgWithTaskA : Config := { DefaultConfig "/home/u" with tasks := [taskA] }

/-- C3 counterexample: `AddTask` appends without any uniqueness check, so
adding a task whose id and worktree path are already registered yields a
stored collection with a duplicated id and a duplicated worktree path —
the claimed invariant is not preserved by add. -/
theorem addTask_duplicate_counterexample :
    ¬ ((((AddTask cfgWithTaskA taskA).tasks.map Task.id).Nodup) ∧
       (((AddTask cfgWithTaskA taskA).tasks.map Task.worktree).Nodup)) := by
  decide

/-- C3 amended: the registry does not enforce uniqueness as an invariant.
`AddTask` appends the new task unconditionally, and whenever the added
task's id is already present the resulting collection has duplicate ids
(id uniqueness in practice rests on random id generation and, for branches
and paths, on Start's pre-flight checks, not on the registry). -/
theorem addTask_appends_without_uniqueness_check (c : Config) (t : Task)
    (hid : t.id ∈ c.tasks.map Task.id) :
    (AddTask c t).tasks = c.tasks ++ [t] ∧
    ¬ (((AddTask c t).tasks.map Task.id).Nodup) := by
  refine ⟨rfl, ?_⟩
  intro hnodup
  have happ : (c.tasks.map Task.id ++ [t.id]).Nodup := by
    simpa [AddTask] using hnodup
  rcases List.nodup_append.mp happ with ⟨_, _, hdisj⟩
  exact hdisj hid (by simp)

/-- Witness for the amended C3 theorem: a duplicate add at a concrete
registry. -/
theorem addTask_appends_without_uniqueness_check_witness :
    (AddTask cfgWithTaskA taskA).tasks = cfgWithTaskA.tasks ++ [taskA] ∧
    ¬ (((AddTask cfgWithTaskA taskA).tasks.map Task.id).Nodup) :=
  addTask_appends_without_uniqueness_check cfgWithTaskA taskA (by decide)

/-! ### On-disk effect of Save (C2)

Go `(*Config).Save` resolves the config path (failing when the home
directory is unknown), runs `os.MkdirAll` on the config directory, marshals
the config to YAML, and then rewrites `config.yaml` in place with a single
`os.WriteFile` call.  `os.WriteFile` truncates the target and writes the
new bytes; no temporary file or atomic rename is involved, so a write that
fails midway leaves a prefix of the new bytes where the old file was.  The
outcomes below mirror Save's step sequence. -/

/-- Possible outcomes of one `Save` attempt, in the order the steps run. -/
inductive SaveOutcome where
  | ok
  | configDirFail
  | mkdirFail
  | marshalFail
  | writeFail (written : Nat)
deriving DecidableEq, Repr

/-- Contents of `config.yaml` on disk (`none` = absent) after a Save attempt
with the given outcome, starting from contents `old`, writing the marshalled
bytes `encoded`. -/
def saveDisk (old : Option (List Nat)) (encoded : List Nat) :
    SaveOutcome → Option (List Nat)
  | .ok => some encoded
  | .configDirFail => old
  | .mkdirFail => old
  | .marshalFail => old
  | .writeFail k => some (encoded.take k)

/-- C2 counterexample: Save is not all-or-nothing.  A write that fails after
one byte leaves the file holding `[9]` — neither the old contents `[1,2,3]`
nor the new contents `[9,9]`. -/
theorem save_not_atomic_counterexample :
    ¬ (saveDisk (some [1, 2, 3]) [9, 9] (.writeFail 1) = some [1, 2, 3] ∨
       saveDisk (some [1, 2, 3]) [9, 9] (.writeFail 1) = some [9, 9]) := by
  decide

/-- C2 amended: failures before the in-place write (unknown home directory,
config-directory creation, marshalling) leave the prior on-disk state
untouched, and a successful save installs the full new state; but the write
itself is in place and non-atomic, so a failed write leaves some prefix of
the new bytes, possibly destroying the old state. -/
theorem save_prewrite_failure_preserves_disk (old : Option (List Nat))
    (encoded : List Nat) (k : Nat) :
    saveDisk old encoded .configDirFail = old ∧
    saveDisk old encoded .mkdirFail = old ∧
    saveDisk old encoded .marshalFail = old ∧
    saveDisk old encoded .ok = some encoded ∧
    ∃ n, saveDisk old encoded (.writeFail k) = some (encoded.take n) :=
  ⟨rfl, rfl, rfl, rfl, k, rfl⟩

/-! ### Persisted registry format (C9)

The YAML document written by `Save` (`yaml.Marshal` on `Config`) and read
back by `Load` (`yaml.Unmarshal` into a `DefaultConfig`) is modelled at the
document level: a tree of scalars, sequences and mappings carrying the Go
struct-tag field names and `omitempty` semantics.  `time.Time` is an opaque
scalar.  Absent keys keep the `DefaultConfig` value, which also covers the
`cfg.Tasks == nil` normalization in `Load`: an absent `tasks` key yields the
default empty list. -/

/-- A YAML document value. -/
inductive YVal where
  | str (v : String)
  | time (v : Nat)
  | seq (items : List YVal)
  | map (entries : List (String × YVal))

/-- String field of a YAML mapping, with a default for an absent key. -/
def lookupStr (es : List (String × YVal)) (k : String) (dflt : String) : String :=
  match es.lookup k with
  | some (.str v) => v
  | _ => dflt

/-- Timestamp field of a YAML mapping, with a default for an absent key. -/
def lookupTime (es : List (String × YVal)) (k : String) (dflt : Nat) : Nat :=
  match es.lookup k with
  | some (.time v) => v
  | _ => dflt

/-- `yaml.Marshal` on one `Task`, following the struct tags
(`connector` and `ticket_key` carry `omitempty`). -/
def marshalTask (t : Task) : YVal :=
  .map ([("id", .str t.id), ("description", .str t.description),
      ("worktree", .str t.worktree), ("branch", .str t.branch),
      ("repo_path", .str t.repoPath)]
    ++ (if t.connector = "" then [] else [("connector", .str t.connector)])
    ++ (if t.ticketKey = "" then [] else [("ticket_key", .str t.ticketKey)])
    ++ [("created", .time t.created)])

/-- `yaml.Marshal` on one `ConnectorConfig` (all fields `omitempty`). -/
def marshalConnectorConfig (cc : ConnectorConfig) : YVal :=
  .map ((if cc.url = "" then [] else [("url", .str cc.url)])
    ++ (if cc.email = "" then [] else [("email", .str cc.email)])
    ++ (if cc.apiToken = "" then [] else [("api_token", .str cc.apiToken)])
    ++ (if cc.project = "" then [] else [("project", .str cc.project)]))

/-- `yaml.Marshal` on `Config`, following the struct tags: the three base
scalars always present, `default_agent`, `agent_aliases`, `connectors` and
`tasks` carrying `omitempty`. -/
def marshalConfig (c : Config) : YVal :=
  .map ([("worktrees_base", .str c.worktreesBase),
      ("default_branch", .str c.defaultBranch),
      ("branch_prefix", .str c.branchPrefix)]
    ++ (if c.defaultAgent = "" then [] else [("default_agent", .str c.defaultAgent)])
    ++ (if c.agentAliases = [] then [] else
        [("agent_aliases", .map (c.agentAliases.map (fun kv => (kv.1, YVal.str kv.2))))])
    ++ (if c.connectors = [] then [] else
        [("connectors", .map (c.connectors.map (fun kv => (kv.1, marshalConnectorConfig kv.2))))])
    ++ (if c.tasks = [] then [] else [("tasks", .seq (c.tasks.map marshalTask))]))

/-- `yaml.Unmarshal` of one sequence element into a fresh zero-valued
`Task`: absent or ill-typed fields keep the zero value. -/
def decodeTask : YVal → Task
  | .map es =>
    ⟨lookupStr es "id" "", lookupStr es "description" "", lookupStr es "worktree" "",
     lookupStr es "branch" "", lookupStr es "repo_path" "", lookupStr es "connector" "",
     lookupStr es "ticket_key" "", lookupTime es "created" 0⟩
  | _ => ⟨"", "", "", "", "", "", "", 0⟩

/-- Decode an `agent_aliases` mapping. -/
def decodeAliases : YVal → List (String × String)
  | .map es => es.map (fun kv => (kv.1, match kv.2 with | .str v => v | _ => ""))
  | _ => []

/-- Decode one connector entry into a fresh zero-valued `ConnectorConfig`. -/
def decodeConnectorConfig : YVal → ConnectorConfig
  | .map es =>
    ⟨lookupStr es "url" "", lookupStr es "email" "",
     lookupStr es "api_token" "", lookupStr es "project" ""⟩
  | _ => ⟨"", "", "", ""⟩

/-- Decode the `connectors` mapping. -/
def decodeConnectors : YVal → List (String × ConnectorConfig)
  | .map es => es.map (fun kv => (kv.1, decodeConnectorConfig kv.2))
  | _ => []

/-- `yaml.Unmarshal` of a document into an existing `Config` value: fields
present in the document overwrite, absent fields keep the base value. -/
def unmarshalConfig (v : YVal) (base : Config) : Config :=
  match v with
  | .map es =>
    { worktreesBase := lookupStr es "worktrees_base" base.worktreesBase
      defaultBranch := lookupStr es "default_branch" base.defaultBranch
      branchPrefix := lookupStr es "branch_prefix" base.branchPrefix
      defaultAgent := lookupStr es "default_agent" base.defaultAgent
      agentAliases :=
        match es.lookup "agent_aliases" with
        | some v' => decodeAliases v'
        | none => base.agentAliases
      connectors :=
        match es.lookup "connectors" with
        | some v' => decodeConnectors v'
        | none => base.connectors
      tasks :=
        match es.lookup "tasks" with
        | some (.seq xs) => xs.map decodeTask
        | some _ => base.tasks
        | none => base.tasks }
  | _ => base

/-- Go `config.Load` applied to an existing config document: unmarshal into
`DefaultConfig` (the nil-slice/nil-map normalizations in `Load` are
identities here because absent keys already yield the default empty
lists). -/
def loadFromDoc (home : String) (v : YVal) : Config :=
  unmarshalConfig v (DefaultConfig home)

theorem decode_marshalTask (t : Task) : decodeTask (marshalTask t) = t := by
  obtain ⟨i, d, w, b, r, co, tk, cr⟩ := t
  by_cases hc : co = "" <;> by_cases ht : tk = "" <;>
    simp [marshalTask, decodeTask, lookupStr, lookupTime, List.lookup, hc, ht]

theorem decode_marshal_tasks (ts : List Task) :
    (ts.map marshalTask).map decodeTask = ts := by
  induction ts with
  | nil => rfl
  | cons t ts ih => simp [decode_marshalTask t, ih]

theorem decode_marshal_tasks_comp (ts : List Task) :
    ts.map (decodeTask ∘ marshalTask) = ts := by
  rw [← List.map_map]
  exact decode_marshal_tasks ts

/-- C9: saving a registry to the persisted format and loading it back yields
exactly the same task records, with all field values identical (in
particular the same count). -/
theorem registry_roundtrip (home : String) (c : Config) :
    (loadFromDoc home (marshalConfig c)).tasks = c.tasks := by
  unfold loadFromDoc unmarshalConfig marshalConfig
  by_cases hda : c.defaultAgent = "" <;> by_cases hal : c.agentAliases = [] <;>
    by_cases hco : c.connectors = [] <;> by_cases hts : c.tasks = [] <;>
      simp [hda, hal, hco, hts, List.lookup, DefaultConfig,
        decode_marshal_tasks, decode_marshal_tasks_comp]

/-! ### Lifecycle coordinator (internal/task/task.go)

`Start` and `Finish` orchestrate git, the filesystem and the registry.
External calls are modelled by success/failure oracles in an environment
record (plus the generated random id and the clock), the external state by
an explicit record, and the calls actually issued by an effect trace. -/

/-- Go `task.StartOptions`. -/
structure StartOptions where
  description : String
  repoPath : String
  connector : String
  ticketKey : String
  ticketTitle : String
deriving DecidableEq, Repr

/-- Error results of the lifecycle operations, mirroring the `fmt.Errorf`
sites in internal/task and internal/worktree. -/
inductive WtErr where
  | notGitRepo (repoPath : String)
  | branchCollision (branch : String)
  | mkdirFailed
  | createFailed
  | removeFailed
  | saveFailed
  | taskNotFound (id : String)
deriving DecidableEq, Repr

/-- External calls issued by a lifecycle operation, in order. -/
inductive Eff where
  | mkdirAll (dir : String)
  | wtCreate (repoPath worktreePath branch : String)
  | wtRemove (repoPath worktreePath : String)
  | delBranch (repoPath branch : String)
  | warn
  | save
deriving DecidableEq, Repr

/-- External state: existing branches per repository, existing worktree
directories, and the in-memory registry. -/
structure SysState where
  branches : List (String × String)
  worktrees : List String
  cfg : Config
deriving DecidableEq, Repr

/-- Oracles for one `Start` invocation: the repository-name resolution
(`none` = not a git repository), the `BranchExists` probe, the success of
`os.MkdirAll`, `worktree.Create` and `Config.Save`, the generated random id
and the clock. -/
structure StartEnv where
  repoNameResult : Option String
  branchExists : String → Bool
  mkdirOk : Bool
  createOk : Bool
  saveOk : Bool
  freshId : String
  now : Nat

/-- Go `filepath.Join` for two paths (the clean, non-dotted paths used
here; path cleaning is omitted). -/
def goJoin (a b : String) : String :=
  if a = "" then b else if b = "" then a else a ++ "/" ++ b

/-- Go `filepath.Dir` for the clean paths used here: everything before the
last slash, "." when there is no slash and "/" when only the root remains. -/
def goDir (p : String) : String :=
  let kept := trimRight (fun c => !(c == '/')) p.data
  match trimRight (fun c => c == '/') kept with
  | [] => if kept = [] then "." else "/"
  | l => String.mk l

/-- The branch-name computation inside `Start`: the ticket path (with the
ticket title falling back to the description) when a ticket key is present,
the description path otherwise. -/
def startBranch (c : Config) (opts : StartOptions) : String :=
  if opts.ticketKey ≠ "" then
    let title := if opts.ticketTitle = "" then opts.description else opts.ticketTitle
    BranchNameFromTicket c.branchPrefix opts.ticketKey title
  else
    BranchName c.branchPrefix opts.description

/-- Go `(*Manager).Start`: resolve the repository name, compute the branch,
refuse on collision, compute the worktree path, ensure its parent directory,
create the branch-bound worktree, then `AddTask` (append + `Save`).  Returns
the result, the post-state and the trace of issued external calls. -/
def startM (env : StartEnv) (st : SysState) (opts : StartOptions) :
    Except WtErr Task × SysState × List Eff :=
  match env.repoNameResult with
  | none => (.error (.notGitRepo opts.repoPath), st, [])
  | some repoName =>
    let branch := startBranch st.cfg opts
    if env.branchExists branch then
      (.error (.branchCollision branch), st, [])
    else
      let wtPath := goJoin (goJoin st.cfg.worktreesBase repoName)
        (SanitizeBranchName opts.description)
      if !env.mkdirOk then
        (.error .mkdirFailed, st, [.mkdirAll (goDir wtPath)])
      else if !env.createOk then
        (.error .createFailed, st,
          [.mkdirAll (goDir wtPath), .wtCreate opts.repoPath wtPath branch])
      else
        let t : Task := ⟨env.freshId, opts.description, wtPath, branch,
          opts.repoPath, opts.connector, opts.ticketKey, env.now⟩
        let st1 : SysState :=
          { branches := st.branches ++ [(opts.repoPath, branch)]
            worktrees := st.worktrees ++ [wtPath]
            cfg := AddTask st.cfg t }
        let tr := [Eff.mkdirAll (goDir wtPath),
          Eff.wtCreate opts.repoPath wtPath branch, Eff.save]
        if !env.saveOk then (.error .saveFailed, st1, tr)
        else (.ok t, st1, tr)

/-- Oracles for one `Finish` invocation: success of `worktree.Remove`,
`worktree.DeleteBranch` and `Config.Save`. -/
structure FinishEnv where
  removeOk : Bool
  deleteBranchOk : Bool
  saveOk : Bool
deriving DecidableEq, Repr

/-- Go `(*Manager).Finish`: find the task (not-found is fatal), remove the
worktree (fatal on failure), delete the branch (warn and continue on
failure), then `RemoveTask` (drop the first matching record and `Save`). -/
def finishM (env : FinishEnv) (st : SysState) (id : String) :
    Except WtErr Task × SysState × List Eff :=
  match FindTask st.cfg id with
  | none => (.error (.taskNotFound id), st, [])
  | some t =>
    if !env.removeOk then
      (.error .removeFailed, st, [.wtRemove t.repoPath t.worktree])
    else
      let st1 : SysState :=
        { st with worktrees := st.worktrees.filter (fun w => !(w == t.worktree)) }
      let step2 :=
        if !env.deleteBranchOk then
          (st1, [Eff.wtRemove t.repoPath t.worktree,
            Eff.delBranch t.repoPath t.branch, Eff.warn])
        else
          ({ st1 with
              branches := st1.branches.filter (fun rb => !(rb == (t.repoPath, t.branch))) },
           [Eff.wtRemove t.repoPath t.worktree, Eff.delBranch t.repoPath t.branch])
      let st3 : SysState :=
        { step2.1 with cfg := { step2.1.cfg with tasks := removeFirstTask step2.1.cfg.tasks id } }
      if !env.saveOk then (.error .saveFailed, st3, step2.2 ++ [Eff.save])
      else (.ok t, st3, step2.2 ++ [Eff.save])

/-! ### Concrete fixtures for counterexamples and witnesses -/

/-- Environment in which every external call succeeds and no branch exists. -/
def envOk : StartEnv := ⟨some "repo", fun _ => false, true, true, true, "wt-2222", 7⟩

/-- Environment in which the branch-existence probe always reports true. -/
def envCollide : StartEnv := ⟨some "repo", fun _ => true, true, true, true, "wt-1111", 5⟩

/-- Fresh state with an empty registry. -/
def stEmpty : SysState := ⟨[], [], DefaultConfig "/home/u"⟩

/-- Description-based request whose description sanitizes to the empty slug. -/
def optsBang : StartOptions := ⟨"!!!", "/r", "", "", ""⟩

/-- Plain description-based request. -/
def optsDemo : StartOptions := ⟨"demo", "/r", "", "", ""⟩

/-- Ticket-based request with the same description as `optsDemo`. -/
def optsDemoTicket : StartOptions := ⟨"demo", "/r", "jira", "T-1", "Demo"⟩

/-- Finish environment in which every external call succeeds. -/
def envFin : FinishEnv := ⟨true, true, true⟩

/-- State holding `taskA` with its branch and worktree in place. -/
def stWithA : SysState :=
  ⟨[("/home/u/repo", "feature/demo")], ["/home/u/worktrees/repo/demo"], cfgWithTaskA⟩

/-- A second task sharing `taskA`'s id (registries with duplicate ids load
fine and `AddTask` can create them, see the C3 result). -/
def taskA2 : Task :=
  ⟨"wt-0a0a", "demo2", "/home/u/worktrees/repo/demo2", "feature/demo2", "/home/u/repo", "", "", 1⟩

/-- A state whose registry holds two tasks with the same id. -/
def stDup : SysState :=
  ⟨[], ["/home/u/worktrees/repo/demo"],
   { DefaultConfig "/home/u" with tasks := [taskA, taskA2] }⟩

/-! ### Claims about Start -/

/-- C5: when the computed branch name already exists in the repository
(`branchExists` reports true), Start fails with a collision error naming
that branch, issues no external call at all — in particular it never
invokes worktree creation — and leaves the branches, the filesystem and the
registry exactly as they were. -/
theorem start_branch_collision_refused (env : StartEnv) (st : SysState)
    (opts : StartOptions) (rn : String)
    (hrepo : env.repoNameResult = some rn)
    (hex : env.branchExists (startBranch st.cfg opts) = true) :
    startM env st opts =
      (.error (.branchCollision (startBranch st.cfg opts)), st, []) := by
  unfold startM
  rw [hrepo]
  simp [hex]

/-- Witness for C5 at a concrete environment, state and request. -/
theorem start_branch_collision_refused_witness :
    startM envCollide stEmpty optsDemo =
      (.error (.branchCollision (startBranch stEmpty.cfg optsDemo)), stEmpty, []) :=
  start_branch_collision_refused envCollide stEmpty optsDemo "repo" rfl rfl

theorem goJoin_empty_right (a : String) : goJoin a "" = a := by
  unfold goJoin
  by_cases h : a = "" <;> simp [h]

/-- C6 counterexample: the description "!!!" sanitizes to the empty slug,
yet the operation is not rejected as a validation failure before branch and
worktree creation: with every external call succeeding, Start runs to
completion, invoking worktree creation with branch "feature/" and directory
"/home/u/worktrees/repo". -/
theorem start_empty_slug_counterexample :
    SanitizeBranchName "!!!" = "" ∧
    startM envOk stEmpty optsBang =
      (.ok ⟨"wt-2222", "!!!", "/home/u/worktrees/repo", "feature/", "/r", "", "", 7⟩,
       ⟨[("/r", "feature/")], ["/home/u/worktrees/repo"],
        { DefaultConfig "/home/u" with
            tasks := [⟨"wt-2222", "!!!", "/home/u/worktrees/repo", "feature/", "/r", "", "", 7⟩] }⟩,
       [.mkdirAll "/home/u/worktrees", .wtCreate "/r" "/home/u/worktrees/repo" "feature/",
        .save]) :=
  ⟨rfl, rfl⟩

/-- C6 amended: sanitize itself never errors — empty input yields the empty
slug — but no caller rejects the empty slug as a validation failure: for
every description-based Start whose description sanitizes to the empty
slug, once the repository resolves, no collision is reported and the parent
directory is created, Start issues the worktree-creation call (with branch
`prefix + "/"` when the prefix is non-empty); any rejection then comes from
the external git call, not from input validation. -/
theorem start_empty_slug_proceeds_to_create (env : StartEnv) (st : SysState)
    (opts : StartOptions) (rn : String)
    (hrepo : env.repoNameResult = some rn)
    (hkey : opts.ticketKey = "")
    (hslug : SanitizeBranchName opts.description = "")
    (hnocol : env.branchExists (startBranch st.cfg opts) = false)
    (hmk : env.mkdirOk = true) :
    SanitizeBranchName "" = "" ∧
    Eff.wtCreate opts.repoPath (goJoin st.cfg.worktreesBase rn) (startBranch st.cfg opts)
      ∈ (startM env st opts).2.2 ∧
    (st.cfg.branchPrefix ≠ "" → startBranch st.cfg opts = st.cfg.branchPrefix ++ "/") := by
  refine ⟨rfl, ?_, ?_⟩
  · unfold startM
    rw [hrepo]
    by_cases hc : env.createOk <;> by_cases hs : env.saveOk <;>
      simp [hnocol, hmk, hc, hs, hslug, goJoin_empty_right]
  · intro hp
    unfold startBranch
    rw [hkey]
    simp only [ne_eq, not_true_eq_false, if_false]
    unfold BranchName
    rw [hslug, if_neg hp]
    have : st.cfg.branchPrefix ++ "/" ++ "" = st.cfg.branchPrefix ++ "/" :=
      String.append_empty _
    exact this

/-- Witness for the amended C6 theorem at a concrete all-success run. -/
theorem start_empty_slug_proceeds_to_create_witness :
    SanitizeBranchName "" = "" ∧
    Eff.wtCreate optsBang.repoPath (goJoin stEmpty.cfg.worktreesBase "repo")
        (startBranch stEmpty.cfg optsBang) ∈ (startM envOk stEmpty optsBang).2.2 ∧
    (stEmpty.cfg.branchPrefix ≠ "" →
      startBranch stEmpty.cfg optsBang = stEmpty.cfg.branchPrefix ++ "/") :=
  start_empty_slug_proceeds_to_create envOk stEmpty optsBang "repo" rfl rfl (by decide) rfl rfl

theorem startM_ok_worktree {env : StartEnv} {st : SysState} {opts : StartOptions}
    {rn : String} {t : Task} {s : SysState} {e : List Eff}
    (hrepo : env.repoNameResult = some rn)
    (h : startM env st opts = (.ok t, s, e)) :
    t.worktree = goJoin (goJoin st.cfg.worktreesBase rn)
      (SanitizeBranchName opts.description) := by
  unfold startM at h
  rw [hrepo] at h
  by_cases hex : env.branchExists (startBranch st.cfg opts) <;>
    by_cases hmk : env.mkdirOk <;> by_cases hc : env.createOk <;>
      by_cases hs : env.saveOk <;> simp [hex, hmk, hc, hs] at h
  all_goals
    rw [← h.1]

/-- C10: the worktree directory computed by Start is always
`WorktreesBase/repoName/sanitize(description)` — the ticket key, the ticket
title and the branch prefix play no part in it — so two successful Starts
against the same repository whose descriptions sanitize to the same slug
target the same directory. -/
theorem start_worktree_path_from_description_only (env : StartEnv)
    (st : SysState) (o1 o2 : StartOptions) (rn : String) (t1 t2 : Task)
    (s1 s2 : SysState) (e1 e2 : List Eff)
    (hrepo : env.repoNameResult = some rn)
    (h1 : startM env st o1 = (.ok t1, s1, e1))
    (h2 : startM env st o2 = (.ok t2, s2, e2))
    (hd : SanitizeBranchName o1.description = SanitizeBranchName o2.description) :
    t1.worktree = goJoin (goJoin st.cfg.worktreesBase rn)
        (SanitizeBranchName o1.description) ∧
    t1.worktree = t2.worktree := by
  have w1 := startM_ok_worktree hrepo h1
  have w2 := startM_ok_worktree hrepo h2
  refine ⟨w1, ?_⟩
  rw [w1, w2, hd]

/-- Task produced by `startM envOk stEmpty optsDemo`. -/
def taskDemo : Task :=
  ⟨"wt-2222", "demo", "/home/u/worktrees/repo/demo", "feature/demo", "/r", "", "", 7⟩

/-- Task produced by `startM envOk stEmpty optsDemoTicket`: same directory,
different branch. -/
def taskDemoTicket : Task :=
  ⟨"wt-2222", "demo", "/home/u/worktrees/repo/demo", "feature/t-1-demo", "/r", "jira", "T-1", 7⟩

/-- Witness for C10: a description-based and a ticket-based Start with the
same description target the same directory. -/
theorem start_worktree_path_from_description_only_witness :
    taskDemo.worktree = goJoin (goJoin stEmpty.cfg.worktreesBase "repo")
        (SanitizeBranchName optsDemo.description) ∧
    taskDemo.worktree = taskDemoTicket.worktree :=
  start_worktree_path_from_description_only envOk stEmpty optsDemo optsDemoTicket "repo"
    taskDemo taskDemoTicket
    (startM envOk stEmpty optsDemo).2.1 (startM envOk stEmpty optsDemoTicket).2.1
    (startM envOk stEmpty optsDemo).2.2 (startM envOk stEmpty optsDemoTicket).2.2
    rfl rfl rfl rfl

/-! ### Claims about Finish -/

theorem find?_removeFirst_none : ∀ (ts : List Task) (id : String),
    ts.countP (fun t => t.id == id) ≤ 1 →
    (removeFirstTask ts id).find? (fun t => t.id == id) = none
  | [], _, _ => rfl
  | t :: ts, id, h => by
    by_cases ht : t.id = id
    · have hcount : ts.countP (fun t => t.id == id) = 0 := by
        rw [List.countP_cons] at h
        simp only [ht, beq_self_eq_true, if_pos] at h
        omega
      simp only [removeFirstTask, if_pos ht]
      rw [List.find?_eq_none]
      intro x hx
      have := List.countP_eq_zero.mp hcount x hx
      simpa using this
    · simp only [removeFirstTask, if_neg ht]
      rw [List.find?_cons_of_neg]
      · apply find?_removeFirst_none ts id
        rw [List.countP_cons] at h
        omega
      · simp [ht]

theorem not_mem_filter_ne_self (w : String) (l : List String) :
    w ∉ l.filter (fun x => !(x == w)) := by
  intro hmem
  have := (List.mem_filter.mp hmem).2
  simp at this

/-- C4 amended: provided the task's id occurs at most once in the registry
(the data model's uniqueness invariant, which the registry itself does not
enforce — see the C3 result): (a) after a successful Finish the task's
worktree directory is gone from the filesystem and lookup of the id reports
not-found; (b) when branch deletion fails while worktree removal and the
registry save succeed, Finish still completes successfully and the task is
still removed from the registry; and (c) whenever worktree removal fails,
the registry is left untouched — the record is never dropped before the
working copy is gone. -/
theorem finish_spec_under_unique_ids :
    (∀ (env : FinishEnv) (st : SysState) (id : String) (t : Task),
        st.cfg.tasks.countP (fun tk => tk.id == id) ≤ 1 →
        (finishM env st id).1 = .ok t →
        t.worktree ∉ ((finishM env st id).2.1).worktrees ∧
        FindTask ((finishM env st id).2.1).cfg id = none) ∧
    (∀ (env : FinishEnv) (st : SysState) (id : String) (t : Task),
        env.removeOk = true → env.saveOk = true → env.deleteBranchOk = false →
        st.cfg.tasks.countP (fun tk => tk.id == id) ≤ 1 →
        FindTask st.cfg id = some t →
        (finishM env st id).1 = .ok t ∧
        FindTask ((finishM env st id).2.1).cfg id = none) ∧
    (∀ (env : FinishEnv) (st : SysState) (id : String),
        env.removeOk = false → ((finishM env st id).2.1).cfg = st.cfg) := by
  refine ⟨?_, ?_, ?_⟩
  · intro env st id t hcount hok
    cases hfind : FindTask st.cfg id with
    | none => simp [finishM, hfind] at hok
    | some t0 =>
      by_cases hrm : env.removeOk <;> by_cases hdb : env.deleteBranchOk <;>
        by_cases hsv : env.saveOk <;>
          simp only [finishM, hfind, hrm, hdb, hsv, Bool.not_true, Bool.not_false,
            if_true, if_false, Bool.false_eq_true, Bool.true_eq_false] at hok ⊢ <;>
        simp at hok <;> rw [← hok]
      all_goals
        exact ⟨not_mem_filter_ne_self t0.worktree st.worktrees,
          find?_removeFirst_none st.cfg.tasks id hcount⟩
  · intro env st id t hrm hsv hdb hcount hfind
    simp only [finishM, hfind, hrm, hdb, hsv, Bool.not_true, Bool.not_false,
      if_true, if_false, Bool.false_eq_true, Bool.true_eq_false]
    refine ⟨by simp, ?_⟩
    exact find?_removeFirst_none st.cfg.tasks id hcount
  · intro env st id hrm
    cases hfind : FindTask st.cfg id with
    | none => simp [finishM, hfind]
    | some t0 => simp [finishM, hfind, hrm]

/-- C4 counterexample: with two registered tasks sharing the id "wt-0a0a"
(reachable — the registry neither enforces uniqueness on add nor on load),
Finish succeeds yet a subsequent lookup of that id still finds the second
task instead of reporting not-found. -/
theorem finish_duplicate_id_counterexample :
    (finishM envFin stDup "wt-0a0a").1 = .ok taskA ∧
    FindTask ((finishM envFin stDup "wt-0a0a").2.1).cfg "wt-0a0a" = some taskA2 :=
  ⟨rfl, rfl⟩

/-- Witness for the amended C4 theorem at a concrete all-success run. -/
theorem finish_spec_under_unique_ids_witness :
    taskA.worktree ∉ ((finishM envFin stWithA "wt-0a0a").2.1).worktrees ∧
    FindTask ((finishM envFin stWithA "wt-0a0a").2.1).cfg "wt-0a0a" = none :=
  finish_spec_under_unique_ids.1 envFin stWithA "wt-0a0a" taskA (by decide) rfl

end Wt
